import Mathlib

/-!
Verification of the identifier-validation module `allofplos/plos_regex.py`.

The Python module defines a handful of regular-expression constants and seven
thin wrapper functions (`validate_doi`, `validate_filename`, `validate_file_url`,
`validate_plos_url`, `find_valid_dois`, `show_invalid_dois`,
`currents_doi_filter`).  Each compiled pattern is a concatenation / alternation
of literals, character classes (`[a-zA-Z]`, `[0-9]`, `[a-zA-Z0-9]`, `[a-z]`,
`[rs]`), bounded repetitions (`{3}`, `{7}`, `{2,9}`, `+`, `?`) and the anchors
`^` and `$`.  We embed the patterns as continuation-passing matchers over
`List Char`; alternation and the optional operator try every possibility, so a
matcher returns `true` exactly when some decomposition of the input fits the
pattern — which is what Python's backtracking engine decides when the result is
only converted to `bool`.

Python anchor semantics are modelled faithfully: `^` (with `re.search` and no
MULTILINE flag) restricts matching to position 0, and `$` is zero-width and
succeeds exactly when the remaining input is empty or a single trailing
newline.  Python's `[\d]` is Unicode-aware; inputs of interest are ASCII and we
model it as the ASCII digits (`Char.isDigit`), and likewise `[a-zA-Z0-9]` as
`Char.isAlphanum`.
-/

namespace PlosRegex

/-- CPS matcher for a literal: consumes the literal characters then continues. -/
def matchLit : List Char → (List Char → Bool) → List Char → Bool
  | [], k, s => k s
  | _ :: _, _, [] => false
  | l :: lit, k, c :: s => (l == c) && matchLit lit k s

/-- CPS matcher for a single character-class occurrence (e.g. `[rs]`). -/
def matchCls (cls : Char → Bool) (k : List Char → Bool) : List Char → Bool
  | [] => false
  | c :: s => cls c && k s

/-- CPS matcher for an exact repetition `cls{n}`. -/
def matchCount (cls : Char → Bool) : Nat → (List Char → Bool) → List Char → Bool
  | 0, k, s => k s
  | _ + 1, _, [] => false
  | n + 1, k, c :: s => cls c && matchCount cls n k s

/-- CPS matcher for `cls*` (greedy, with full backtracking into `k`). -/
def matchStar (cls : Char → Bool) (k : List Char → Bool) : List Char → Bool
  | [] => k []
  | c :: s => (cls c && matchStar cls k s) || k (c :: s)

/-- CPS matcher for `cls+`: one occurrence followed by `cls*`. -/
def matchPlus (cls : Char → Bool) (k : List Char → Bool) (s : List Char) : Bool :=
  matchCls cls (matchStar cls k) s

/-- CPS matcher for a bounded repetition `cls{lo,hi}` (greedy, backtracking). -/
def matchRep (cls : Char → Bool) : Nat → Nat → (List Char → Bool) → List Char → Bool
  | lo, 0, k, s => lo == 0 && k s
  | lo, _ + 1, k, [] => lo == 0 && k []
  | lo, hi + 1, k, c :: s =>
    (cls c && matchRep cls (lo - 1) hi k s) || (lo == 0 && k (c :: s))

/-- CPS matcher for `m?`: try `m`, or skip it. -/
def matchOpt (m : (List Char → Bool) → List Char → Bool)
    (k : List Char → Bool) (s : List Char) : Bool :=
  m k s || k s

/-- CPS matcher for alternation `m₁|m₂`. -/
def matchAlt (m₁ m₂ : (List Char → Bool) → List Char → Bool)
    (k : List Char → Bool) (s : List Char) : Bool :=
  m₁ k s || m₂ k s

/-- Zero-width `$`: succeeds at the end of the string or just before a single
trailing newline (Python `re` semantics without MULTILINE). -/
def matchDollar (k : List Char → Bool) (s : List Char) : Bool :=
  (s == ([] : List Char) || s == ['\n']) && k s

/-- The continuation at the end of an un-end-anchored pattern: anything may follow. -/
def matchEnd : List Char → Bool := fun _ => true

/-- `re.search` for a pattern with no `^` anchor: try every start position. -/
def searchFrom (m : List Char → Bool) : List Char → Bool
  | [] => m []
  | c :: s => m (c :: s) || searchFrom m s

/-! ### Pattern fragments of `plos_regex.py` -/

/-- Journal alternative of the article body: `journal\.p[a-zA-Z]{3}\.[\d]{7}`. -/
def journalBodyM (k : List Char → Bool) : List Char → Bool :=
  matchLit "journal.p".data
    (matchCount Char.isAlpha 3 (matchLit ".".data (matchCount Char.isDigit 7 k)))

/-- UUID-shaped token:
`[a-zA-Z0-9]{8}-[a-zA-Z0-9]{4}-[a-zA-Z0-9]{4}-[a-zA-Z0-9]{4}-[a-zA-Z0-9]{12}`. -/
def uuidTokenM (k : List Char → Bool) : List Char → Bool :=
  matchCount Char.isAlphanum 8 (matchLit "-".data
    (matchCount Char.isAlphanum 4 (matchLit "-".data
      (matchCount Char.isAlphanum 4 (matchLit "-".data
        (matchCount Char.isAlphanum 4 (matchLit "-".data
          (matchCount Char.isAlphanum 12 k))))))))

/-- The character class `[rs]`. -/
def isRS (c : Char) : Bool := c == 'r' || c == 's'

/-- Core of `regex_suffix_match` without the `?`: `\.[rs][0-9]{3}`. -/
def suffixCoreM (k : List Char → Bool) : List Char → Bool :=
  matchLit ".".data (matchCls isRS (matchCount Char.isDigit 3 k))

/-- `regex_suffix_match = (\.[rs][0-9]{3})?`. -/
def regexSuffixMatch (k : List Char → Bool) : List Char → Bool :=
  matchOpt suffixCoreM k

/-- `regex_body_match`: journal alternative, or
`annotation/<uuid>$` — note the `$` inside the second alternative only. -/
def regexBodyMatch (k : List Char → Bool) : List Char → Bool :=
  matchAlt journalBodyM
    (fun k => matchLit "annotation/".data (uuidTokenM (matchDollar k))) k

/-- `regex_body_search`: same two alternatives, with no `$`. -/
def regexBodySearch (k : List Char → Bool) : List Char → Bool :=
  matchAlt journalBodyM
    (fun k => matchLit "annotation/".data (uuidTokenM k)) k

/-- `regex_body_currents`: four alternatives, each ending in `$`:
`currents\.[a-zA-Z]{2,9}\.[a-zA-Z0-9]{32}$`, `currents\.RRN[\d]{4}$`,
`[a-zA-Z0-9]{13}$`, `[a-zA-Z0-9]{32}$`. -/
def regexBodyCurrents (k : List Char → Bool) : List Char → Bool :=
  matchAlt
    (fun k => matchLit "currents.".data
      (matchRep Char.isAlpha 2 9
        (matchLit ".".data (matchCount Char.isAlphanum 32 (matchDollar k)))))
    (matchAlt
      (fun k => matchLit "currents.RRN".data
        (matchCount Char.isDigit 4 (matchDollar k)))
      (matchAlt
        (fun k => matchCount Char.isAlphanum 13 (matchDollar k))
        (fun k => matchCount Char.isAlphanum 32 (matchDollar k)))) k

/-- `regex_file_search`: journal alternative, or `plos\.correction\.<uuid>`. -/
def regexFileSearch (k : List Char → Bool) : List Char → Bool :=
  matchAlt journalBodyM
    (fun k => matchLit "plos.correction.".data (uuidTokenM k)) k

/-- `regex_file_suffix = &type=((manuscript)|(supplementary))`. -/
def regexFileSuffix (k : List Char → Bool) : List Char → Bool :=
  matchLit "&type=".data
    (matchAlt (fun k => matchLit "manuscript".data k)
      (fun k => matchLit "supplementary".data k) k)

/-! ### The seven functions -/

/-- `validate_doi`: `bool(full_doi_regex_match.search(doi))` with
`full_doi_regex_match = ^10\.1371/ + regex_body_match + regex_suffix_match`.
The leading `^` confines `re.search` to position 0. -/
def validate_doi (doi : String) : Bool :=
  matchLit "10.1371/".data (regexBodyMatch (regexSuffixMatch matchEnd)) doi.data

/-- `validate_filename`: `file_regex_match.search(filename)` with
`file_regex_match = regex_file_search + \.xml`, unanchored. -/
def validate_filename (filename : String) : Bool :=
  searchFrom (regexFileSearch (matchLit ".xml".data matchEnd)) filename.data

/-- `validate_file_url`: `external_url_regex_match.match(url)` with the pattern
`re.escape(BASE_URL) + re.escape("article/file?id=10.1371/") +
regex_body_search + regex_suffix_match + regex_file_suffix`.
`.match` anchors at the start only. -/
def validate_file_url (url : String) : Bool :=
  matchLit "https://journals.plos.org/plosone/article/file?id=10.1371/".data
    (regexBodySearch (regexSuffixMatch (regexFileSuffix matchEnd))) url.data

/-- The compiled `plos_url_regex_match` pattern.  In the source it is built as
`re.escape("https://journals.plos.org/") + r"[a-z]+/" + regex_type_match +
re.escape("?id=10.1371/") + regex_body_search + regex_suffix_match` where
`regex_type_match = (article)|(peerReview)`.  Since `|` has the lowest
precedence in a regular expression, the compiled pattern is the top-level
alternation of the two branches transcribed here:
`https://journals\.plos\.org/[a-z]+/(article)` and
`(peerReview)\?id=10\.1371/ + regex_body_search + regex_suffix_match`. -/
def plosUrlPattern (k : List Char → Bool) : List Char → Bool :=
  matchAlt
    (fun k => matchLit "https://journals.plos.org/".data
      (matchPlus Char.isLower (matchLit "/".data (matchLit "article".data k))))
    (fun k => matchLit "peerReview".data
      (matchLit "?id=10.1371/".data (regexBodySearch (regexSuffixMatch k)))) k

/-- `validate_plos_url`: `bool(plos_url_regex_match.search(url))`, unanchored. -/
def validate_plos_url (url : String) : Bool :=
  searchFrom (plosUrlPattern matchEnd) url.data

/-- `bool(currents_doi_regex.search(x))` with
`currents_doi_regex = ^10\.1371/ + regex_body_currents`; the `^` confines the
search to position 0 and every body alternative carries a `$`. -/
def currentsDoiSearch (s : String) : Bool :=
  matchLit "10.1371/".data (regexBodyCurrents matchEnd) s.data

/-- `currents_doi_filter`: keep the items on which the Currents search fails. -/
def currents_doi_filter (doi_list : List String) : List String :=
  doi_list.filter fun x => !(currentsDoiSearch x)

/-- `show_invalid_dois`: keep the items on which `validate_doi` fails. -/
def show_invalid_dois (doi_list : List String) : List String :=
  doi_list.filter fun x => !(validate_doi x)

/-! ### `find_valid_dois` (re.findall with `full_doi_regex_search`)

The pattern `10\.1371/journal\.p[a-zA-Z]{3}\.[\d]{7}|10\.1371/annotation/<uuid>`
has no nested choice points: at any position, at most one alternative matches
and its match length is determined.  `re.findall` scans left to right, at each
position emits the match (if any) and resumes after it, otherwise advances one
character.  We implement the single-position match as an `Option`-valued
consumer returning the rest of the input after the match. -/

/-- Consume a literal, returning the rest of the input. -/
def consumeLit : List Char → List Char → Option (List Char)
  | [], s => some s
  | _ :: _, [] => none
  | l :: lit, c :: s => if l == c then consumeLit lit s else none

/-- Consume exactly `n` characters of a class, returning the rest. -/
def consumeCount (cls : Char → Bool) : Nat → List Char → Option (List Char)
  | 0, s => some s
  | _ + 1, [] => none
  | n + 1, c :: s => if cls c then consumeCount cls n s else none

/-- Consume a UUID-shaped token (8-4-4-4-12 alphanumeric groups). -/
def consumeUuid (s : List Char) : Option (List Char) :=
  consumeCount Char.isAlphanum 8 s >>= consumeLit "-".data >>=
    consumeCount Char.isAlphanum 4 >>= consumeLit "-".data >>=
    consumeCount Char.isAlphanum 4 >>= consumeLit "-".data >>=
    consumeCount Char.isAlphanum 4 >>= consumeLit "-".data >>=
    consumeCount Char.isAlphanum 12

/-- Try `full_doi_regex_search` at the current position; on success return the
rest of the input after the matched text. -/
def doiSearchAt (s : List Char) : Option (List Char) :=
  (consumeLit "10.1371/journal.p".data s >>= consumeCount Char.isAlpha 3 >>=
    consumeLit ".".data >>= consumeCount Char.isDigit 7)
  <|> (consumeLit "10.1371/annotation/".data s >>= consumeUuid)

/-- The left-to-right scan of `re.findall`: emit the match at the current
position and resume after it, or advance one character.  The first argument is
fuel making the recursion structural; every step consumes at least one
character, so fuel equal to the input length (as supplied by
`find_valid_dois`) is never exhausted. -/
def findAllAux : Nat → List Char → List String
  | 0, _ => []
  | _ + 1, [] => []
  | fuel + 1, c :: s =>
    match doiSearchAt (c :: s) with
    | some r =>
      String.mk ((c :: s).take ((c :: s).length - r.length)) :: findAllAux fuel r
    | none => findAllAux fuel s

/-- `find_valid_dois`: `full_doi_regex_search.findall(doi)` (the pattern has no
groups, so `findall` returns the matched substrings). -/
def find_valid_dois (doi : String) : List String :=
  findAllAux doi.data.length doi.data

/-! ### Structural shapes

Propositional descriptions of the pattern fragments, used to state what the
matchers accept. -/

/-- `t` consists of exactly `n` characters of the class `cls`. -/
def CountCls (cls : Char → Bool) (n : Nat) (t : List Char) : Prop :=
  t.length = n ∧ ∀ c ∈ t, cls c = true

/-- Journal-style article body: `journal.p` + 3 letters + `.` + 7 digits. -/
def JournalShape (t : List Char) : Prop :=
  ∃ l3 d7, t = "journal.p".data ++ l3 ++ '.' :: d7 ∧
    CountCls Char.isAlpha 3 l3 ∧ CountCls Char.isDigit 7 d7

/-- UUID-shaped token: 8-4-4-4-12 alphanumeric groups joined by dashes. -/
def UuidShape (t : List Char) : Prop :=
  ∃ g1 g2 g3 g4 g5,
    t = g1 ++ '-' :: (g2 ++ '-' :: (g3 ++ '-' :: (g4 ++ '-' :: g5))) ∧
    CountCls Char.isAlphanum 8 g1 ∧ CountCls Char.isAlphanum 4 g2 ∧
    CountCls Char.isAlphanum 4 g3 ∧ CountCls Char.isAlphanum 4 g4 ∧
    CountCls Char.isAlphanum 12 g5

/-- Annotation-style article body: `annotation/` + UUID-shaped token. -/
def AnnotationBodyShape (t : List Char) : Prop :=
  ∃ u, t = "annotation/".data ++ u ∧ UuidShape u

/-- Article body (either alternative of `regex_body_search`). -/
def ArticleBodyShape (t : List Char) : Prop :=
  JournalShape t ∨ AnnotationBodyShape t

/-- Correction file body: `plos.correction.` + UUID-shaped token. -/
def CorrectionShape (t : List Char) : Prop :=
  ∃ u, t = "plos.correction.".data ++ u ∧ UuidShape u

/-- File body (either alternative of `regex_file_search`). -/
def FileBodyShape (t : List Char) : Prop :=
  JournalShape t ∨ CorrectionShape t

/-- Review/supplementary suffix: `.r###` or `.s###`. -/
def SuffixShape (t : List Char) : Prop :=
  ∃ c d3, t = '.' :: c :: d3 ∧ isRS c = true ∧ CountCls Char.isDigit 3 d3

/-- Optional suffix: empty or a review/supplementary suffix. -/
def SuffixOptShape (t : List Char) : Prop :=
  t = [] ∨ SuffixShape t

/-- The `&type=` tail of a file url. -/
def TypeSuffixShape (t : List Char) : Prop :=
  t = "&type=manuscript".data ∨ t = "&type=supplementary".data

/-- Currents body: one of the four alternatives of `regex_body_currents`
(without the `$`, which is treated at the whole-string level). -/
def CurrentsBodyShape (t : List Char) : Prop :=
  (∃ ls a32, t = "currents.".data ++ ls ++ '.' :: a32 ∧
      2 ≤ ls.length ∧ ls.length ≤ 9 ∧ (∀ c ∈ ls, c.isAlpha = true) ∧
      CountCls Char.isAlphanum 32 a32) ∨
  (∃ d4, t = "currents.RRN".data ++ d4 ∧ CountCls Char.isDigit 4 d4) ∨
  CountCls Char.isAlphanum 13 t ∨
  CountCls Char.isAlphanum 32 t

/-- A match of `full_doi_regex_search`: either a journal-style DOI or an
annotation DOI, with the `10.1371/` registrant prefix. -/
def DoiSearchShape (m : List Char) : Prop :=
  (∃ t, m = "10.1371/".data ++ t ∧ JournalShape t) ∨
  (∃ u, m = "10.1371/annotation/".data ++ u ∧ UuidShape u)

/-! ### The `findall` scan -/

/-- Spec-side description of the `re.findall` scan: starting from the left,
whenever the DOI pattern matches at the current position the matched text is
emitted and the scan resumes right after it; otherwise the scan advances one
character.  This is the "all non-overlapping occurrences, leftmost first"
reading of `findall`. -/
inductive ScanSpec : List Char → List String → Prop
  | nil : ScanSpec [] []
  | found (m r : List Char) (out : List String) : DoiSearchShape m →
      ScanSpec r out → ScanSpec (m ++ r) (String.mk m :: out)
  | step (c : Char) (s : List Char) (out : List String) :
      (¬ ∃ m r, c :: s = m ++ r ∧ DoiSearchShape m) →
      ScanSpec s out → ScanSpec (c :: s) out

/-! ### Lemmas -/

theorem consumeLit_length {lit s r : List Char}
    (h : consumeLit lit s = some r) : r.length + lit.length = s.length := by
  induction lit generalizing s with
  | nil => simp [consumeLit] at h; simp [h]
  | cons l lit ih =>
    cases s with
    | nil => simp [consumeLit] at h
    | cons c s =>
      simp only [consumeLit] at h
      split at h
      · have := ih h; simp [List.length_cons]; omega
      · exact absurd h (by simp)

theorem consumeCount_length {cls : Char → Bool} {n : Nat} {s r : List Char}
    (h : consumeCount cls n s = some r) : r.length + n = s.length := by
  induction n generalizing s with
  | zero => simp [consumeCount] at h; simp [h]
  | succ n ih =>
    cases s with
    | nil => simp [consumeCount] at h
    | cons c s =>
      simp only [consumeCount] at h
      split at h
      · have := ih h; simp [List.length_cons]; omega
      · exact absurd h (by simp)

theorem doiSearchAt_length {s r : List Char}
    (h : doiSearchAt s = some r) : r.length < s.length := by
  rw [doiSearchAt] at h
  have h : (consumeLit "10.1371/journal.p".data s >>= consumeCount Char.isAlpha 3 >>=
        consumeLit ".".data >>= consumeCount Char.isDigit 7) = some r ∨
      (consumeLit "10.1371/annotation/".data s >>= consumeUuid) = some r := by
    cases hA : (consumeLit "10.1371/journal.p".data s >>= consumeCount Char.isAlpha 3 >>=
        consumeLit ".".data >>= consumeCount Char.isDigit 7) with
    | some v => rw [hA, Option.some_orElse] at h; exact Or.inl h
    | none => rw [hA, Option.none_orElse] at h; exact Or.inr h
  rcases h with h | h
  · rcases Option.bind_eq_some.mp h with ⟨c, hc, h⟩
    rcases Option.bind_eq_some.mp hc with ⟨b, hb, hc⟩
    rcases Option.bind_eq_some.mp hb with ⟨a, ha, hb⟩
    have h1 := consumeLit_length ha
    have h2 := consumeCount_length hb
    have h3 := consumeLit_length hc
    have h4 := consumeCount_length h
    have e1 : ("10.1371/journal.p".data).length = 17 := rfl
    have e2 : (".".data).length = 1 := rfl
    rw [e1] at h1; rw [e2] at h3
    omega
  · rcases Option.bind_eq_some.mp h with ⟨a, ha, h⟩
    unfold consumeUuid at h
    obtain ⟨c8, hc8, g9⟩ := Option.bind_eq_some.mp h
    obtain ⟨c7, hc7, g8⟩ := Option.bind_eq_some.mp hc8
    obtain ⟨c6, hc6, g7⟩ := Option.bind_eq_some.mp hc7
    obtain ⟨c5, hc5, g6⟩ := Option.bind_eq_some.mp hc6
    obtain ⟨c4, hc4, g5⟩ := Option.bind_eq_some.mp hc5
    obtain ⟨c3, hc3, g4⟩ := Option.bind_eq_some.mp hc4
    obtain ⟨c2, hc2, g3⟩ := Option.bind_eq_some.mp hc3
    obtain ⟨c1, hc1, g2⟩ := Option.bind_eq_some.mp hc2
    have h1 := consumeLit_length ha
    have h2 := consumeCount_length hc1
    have h3 := consumeLit_length g2
    have h4 := consumeCount_length g3
    have h5 := consumeLit_length g4
    have h6 := consumeCount_length g5
    have h7 := consumeLit_length g6
    have h8 := consumeCount_length g7
    have h9 := consumeLit_length g8
    have h10 := consumeCount_length g9
    have e1 : ("10.1371/annotation/".data).length = 19 := rfl
    have e2 : ("-".data).length = 1 := rfl
    rw [e1] at h1; rw [e2] at h3 h5 h7 h9
    omega

/-! ### Characterizations of the matchers

Each CPS matcher returns `true` exactly when the input decomposes as the
matched fragment followed by a remainder accepted by the continuation. -/

theorem matchLit_iff (lit : List Char) (k : List Char → Bool) (s : List Char) :
    matchLit lit k s = true ↔ ∃ r, s = lit ++ r ∧ k r = true := by
  induction lit generalizing s with
  | nil => simp [matchLit]
  | cons l lit ih =>
    cases s with
    | nil => simp [matchLit]
    | cons c s =>
      simp only [matchLit, Bool.and_eq_true, beq_iff_eq, ih, List.cons_append]
      constructor
      · rintro ⟨rfl, r, rfl, hk⟩
        exact ⟨r, rfl, hk⟩
      · rintro ⟨r, heq, hk⟩
        injection heq with h1 h2
        exact ⟨h1.symm, r, h2, hk⟩

theorem matchCls_iff (cls : Char → Bool) (k : List Char → Bool) (s : List Char) :
    matchCls cls k s = true ↔ ∃ c r, s = c :: r ∧ cls c = true ∧ k r = true := by
  cases s with
  | nil => simp [matchCls]
  | cons c s =>
    simp only [matchCls, Bool.and_eq_true]
    constructor
    · rintro ⟨hc, hk⟩
      exact ⟨c, s, rfl, hc, hk⟩
    · rintro ⟨c', r, heq, hc, hk⟩
      injection heq with h1 h2
      subst h1; subst h2
      exact ⟨hc, hk⟩

theorem matchCount_iff (cls : Char → Bool) (n : Nat) (k : List Char → Bool)
    (s : List Char) :
    matchCount cls n k s = true ↔
      ∃ t r, s = t ++ r ∧ t.length = n ∧ (∀ c ∈ t, cls c = true) ∧ k r = true := by
  induction n generalizing s with
  | zero =>
    simp only [matchCount]
    constructor
    · intro hk
      exact ⟨[], s, rfl, rfl, by simp, hk⟩
    · rintro ⟨t, r, rfl, hlen, _, hk⟩
      rw [List.length_eq_zero] at hlen
      subst hlen
      exact hk
  | succ n ih =>
    cases s with
    | nil =>
      simp only [matchCount]
      constructor
      · intro h; simp at h
      · rintro ⟨t, r, heq, hlen, -, -⟩
        cases t with
        | nil => simp at hlen
        | cons a t => simp at heq
    | cons c s =>
      simp only [matchCount, Bool.and_eq_true, ih]
      constructor
      · rintro ⟨hc, t, r, rfl, hlen, hall, hk⟩
        exact ⟨c :: t, r, rfl, by simp [hlen], by simpa using ⟨hc, hall⟩, hk⟩
      · rintro ⟨t, r, heq, hlen, hall, hk⟩
        cases t with
        | nil => simp at hlen
        | cons a t =>
          injection heq with h1 h2
          subst h1
          refine ⟨hall c (by simp), t, r, h2, by simpa using hlen, ?_, hk⟩
          intro x hx
          exact hall x (by simp [hx])

theorem matchStar_iff (cls : Char → Bool) (k : List Char → Bool) (s : List Char) :
    matchStar cls k s = true ↔
      ∃ t r, s = t ++ r ∧ (∀ c ∈ t, cls c = true) ∧ k r = true := by
  induction s with
  | nil =>
    simp only [matchStar]
    constructor
    · intro hk
      exact ⟨[], [], rfl, by simp, hk⟩
    · rintro ⟨t, r, heq, _, hk⟩
      rcases List.append_eq_nil.mp heq.symm with ⟨rfl, rfl⟩
      exact hk
  | cons c s ih =>
    simp only [matchStar, Bool.or_eq_true, Bool.and_eq_true, ih]
    constructor
    · rintro (⟨hc, t, r, rfl, hall, hk⟩ | hk)
      · exact ⟨c :: t, r, rfl, by simpa using ⟨hc, hall⟩, hk⟩
      · exact ⟨[], c :: s, rfl, by simp, hk⟩
    · rintro ⟨t, r, heq, hall, hk⟩
      cases t with
      | nil =>
        right
        simp only [List.nil_append] at heq
        rw [← heq] at hk
        exact hk
      | cons a t =>
        injection heq with h1 h2
        subst h1
        exact Or.inl ⟨hall c (by simp), t, r, h2,
          fun x hx => hall x (by simp [hx]), hk⟩

theorem matchPlus_iff (cls : Char → Bool) (k : List Char → Bool) (s : List Char) :
    matchPlus cls k s = true ↔
      ∃ t r, s = t ++ r ∧ t ≠ [] ∧ (∀ c ∈ t, cls c = true) ∧ k r = true := by
  rw [matchPlus, matchCls_iff]
  constructor
  · rintro ⟨c, r, rfl, hc, hstar⟩
    obtain ⟨t, r', rfl, hall, hk⟩ := (matchStar_iff cls k r).mp hstar
    exact ⟨c :: t, r', rfl, by simp, by simpa using ⟨hc, hall⟩, hk⟩
  · rintro ⟨t, r, rfl, hne, hall, hk⟩
    cases t with
    | nil => exact absurd rfl hne
    | cons a t =>
      refine ⟨a, t ++ r, by simp, hall a (by simp), ?_⟩
      exact (matchStar_iff cls k (t ++ r)).mpr
        ⟨t, r, rfl, fun x hx => hall x (by simp [hx]), hk⟩

theorem matchRep_iff (cls : Char → Bool) (lo hi : Nat) (k : List Char → Bool)
    (s : List Char) :
    matchRep cls lo hi k s = true ↔
      ∃ t r, s = t ++ r ∧ lo ≤ t.length ∧ t.length ≤ hi ∧
        (∀ c ∈ t, cls c = true) ∧ k r = true := by
  induction hi generalizing lo s with
  | zero =>
    simp only [matchRep, Bool.and_eq_true, beq_iff_eq]
    constructor
    · rintro ⟨rfl, hk⟩
      exact ⟨[], s, rfl, by simp, by simp, by simp, hk⟩
    · rintro ⟨t, r, rfl, hlo, hhi, _, hk⟩
      rw [Nat.le_zero, List.length_eq_zero] at hhi
      subst hhi
      exact ⟨Nat.le_zero.mp hlo, hk⟩
  | succ hi ih =>
    cases s with
    | nil =>
      simp only [matchRep, Bool.and_eq_true, beq_iff_eq]
      constructor
      · rintro ⟨rfl, hk⟩
        exact ⟨[], [], rfl, by simp, by simp, by simp, hk⟩
      · rintro ⟨t, r, heq, hlo, _, _, hk⟩
        rcases List.append_eq_nil.mp heq.symm with ⟨rfl, rfl⟩
        simp at hlo
        exact ⟨hlo, hk⟩
    | cons c s =>
      simp only [matchRep, Bool.or_eq_true, Bool.and_eq_true, beq_iff_eq, ih]
      constructor
      · rintro (⟨hc, t, r, rfl, hlo, hhi, hall, hk⟩ | ⟨rfl, hk⟩)
        · exact ⟨c :: t, r, rfl, by simp; omega, by simp; omega,
            by simpa using ⟨hc, hall⟩, hk⟩
        · exact ⟨[], c :: s, rfl, by simp, by simp, by simp, hk⟩
      · rintro ⟨t, r, heq, hlo, hhi, hall, hk⟩
        cases t with
        | nil =>
          right
          simp only [List.length_nil] at hlo
          simp only [List.nil_append] at heq
          rw [← heq] at hk
          exact ⟨Nat.le_zero.mp hlo, hk⟩
        | cons a t =>
          injection heq with h1 h2
          subst h1
          refine Or.inl ⟨hall c (by simp), t, r, h2, ?_, ?_,
            fun x hx => hall x (by simp [hx]), hk⟩
          · simp at hlo ⊢; omega
          · simp at hhi ⊢; omega

theorem matchOpt_iff (m : (List Char → Bool) → List Char → Bool)
    (k : List Char → Bool) (s : List Char) :
    matchOpt m k s = true ↔ m k s = true ∨ k s = true := by
  simp [matchOpt]

theorem matchAlt_iff (m₁ m₂ : (List Char → Bool) → List Char → Bool)
    (k : List Char → Bool) (s : List Char) :
    matchAlt m₁ m₂ k s = true ↔ m₁ k s = true ∨ m₂ k s = true := by
  simp [matchAlt]

theorem matchDollar_iff (k : List Char → Bool) (s : List Char) :
    matchDollar k s = true ↔ (s = [] ∨ s = ['\n']) ∧ k s = true := by
  simp [matchDollar]

theorem matchEnd_eq (s : List Char) : matchEnd s = true := rfl

theorem searchFrom_iff (m : List Char → Bool) (s : List Char) :
    searchFrom m s = true ↔ ∃ p r, s = p ++ r ∧ m r = true := by
  induction s with
  | nil =>
    simp only [searchFrom]
    constructor
    · intro hm
      exact ⟨[], [], rfl, hm⟩
    · rintro ⟨p, r, heq, hm⟩
      rcases List.append_eq_nil.mp heq.symm with ⟨rfl, rfl⟩
      exact hm
  | cons c s ih =>
    simp only [searchFrom, Bool.or_eq_true, ih]
    constructor
    · rintro (hm | ⟨p, r, rfl, hm⟩)
      · exact ⟨[], c :: s, rfl, hm⟩
      · exact ⟨c :: p, r, rfl, hm⟩
    · rintro ⟨p, r, heq, hm⟩
      cases p with
      | nil =>
        left
        simp only [List.nil_append] at heq
        rw [← heq] at hm
        exact hm
      | cons a p =>
        injection heq with h1 h2
        subst h1
        exact Or.inr ⟨p, r, h2, hm⟩

/-! ### Characterizations of the pattern fragments -/

theorem journalBodyM_iff (k : List Char → Bool) (s : List Char) :
    journalBodyM k s = true ↔
      ∃ t r, s = t ++ r ∧ JournalShape t ∧ k r = true := by
  unfold journalBodyM
  rw [matchLit_iff]
  constructor
  · rintro ⟨r1, rfl, h1⟩
    rw [matchCount_iff] at h1
    obtain ⟨l3, r2, rfl, hl3, hall3, h2⟩ := h1
    rw [matchLit_iff] at h2
    obtain ⟨r3, rfl, h3⟩ := h2
    rw [matchCount_iff] at h3
    obtain ⟨d7, r, rfl, hd7, hall7, hk⟩ := h3
    refine ⟨"journal.p".data ++ l3 ++ '.' :: d7, r, ?_,
      ⟨l3, d7, rfl, ⟨hl3, hall3⟩, ⟨hd7, hall7⟩⟩, hk⟩
    simp [List.append_assoc]
  · rintro ⟨t, r, rfl, ⟨l3, d7, rfl, ⟨hl3, hall3⟩, ⟨hd7, hall7⟩⟩, hk⟩
    refine ⟨l3 ++ '.' :: (d7 ++ r), by simp [List.append_assoc], ?_⟩
    rw [matchCount_iff]
    refine ⟨l3, '.' :: (d7 ++ r), rfl, hl3, hall3, ?_⟩
    rw [matchLit_iff]
    refine ⟨d7 ++ r, rfl, ?_⟩
    rw [matchCount_iff]
    exact ⟨d7, r, rfl, hd7, hall7, hk⟩

theorem uuidTokenM_iff (k : List Char → Bool) (s : List Char) :
    uuidTokenM k s = true ↔
      ∃ t r, s = t ++ r ∧ UuidShape t ∧ k r = true := by
  unfold uuidTokenM
  constructor
  · intro h
    rw [matchCount_iff] at h
    obtain ⟨g1, r1, rfl, h1, a1, h⟩ := h
    rw [matchLit_iff] at h
    obtain ⟨r2, rfl, h⟩ := h
    rw [matchCount_iff] at h
    obtain ⟨g2, r3, rfl, h2, a2, h⟩ := h
    rw [matchLit_iff] at h
    obtain ⟨r4, rfl, h⟩ := h
    rw [matchCount_iff] at h
    obtain ⟨g3, r5, rfl, h3, a3, h⟩ := h
    rw [matchLit_iff] at h
    obtain ⟨r6, rfl, h⟩ := h
    rw [matchCount_iff] at h
    obtain ⟨g4, r7, rfl, h4, a4, h⟩ := h
    rw [matchLit_iff] at h
    obtain ⟨r8, rfl, h⟩ := h
    rw [matchCount_iff] at h
    obtain ⟨g5, r, rfl, h5, a5, hk⟩ := h
    refine ⟨g1 ++ '-' :: (g2 ++ '-' :: (g3 ++ '-' :: (g4 ++ '-' :: g5))), r, ?_,
      ⟨g1, g2, g3, g4, g5, rfl, ⟨h1, a1⟩, ⟨h2, a2⟩, ⟨h3, a3⟩, ⟨h4, a4⟩, ⟨h5, a5⟩⟩, hk⟩
    simp [List.append_assoc]
  · rintro ⟨t, r, rfl, ⟨g1, g2, g3, g4, g5, rfl, ⟨h1, a1⟩, ⟨h2, a2⟩, ⟨h3, a3⟩,
      ⟨h4, a4⟩, ⟨h5, a5⟩⟩, hk⟩
    rw [matchCount_iff]
    refine ⟨g1, '-' :: (g2 ++ '-' :: (g3 ++ '-' :: (g4 ++ '-' :: g5))) ++ r,
      by simp [List.append_assoc], h1, a1, ?_⟩
    rw [matchLit_iff]
    refine ⟨g2 ++ '-' :: (g3 ++ '-' :: (g4 ++ '-' :: g5)) ++ r,
      by simp [List.append_assoc], ?_⟩
    rw [matchCount_iff]
    refine ⟨g2, '-' :: (g3 ++ '-' :: (g4 ++ '-' :: g5)) ++ r,
      by simp [List.append_assoc], h2, a2, ?_⟩
    rw [matchLit_iff]
    refine ⟨g3 ++ '-' :: (g4 ++ '-' :: g5) ++ r, by simp [List.append_assoc], ?_⟩
    rw [matchCount_iff]
    refine ⟨g3, '-' :: (g4 ++ '-' :: g5) ++ r, by simp [List.append_assoc], h3, a3, ?_⟩
    rw [matchLit_iff]
    refine ⟨g4 ++ '-' :: g5 ++ r, by simp [List.append_assoc], ?_⟩
    rw [matchCount_iff]
    refine ⟨g4, '-' :: g5 ++ r, by simp [List.append_assoc], h4, a4, ?_⟩
    rw [matchLit_iff]
    refine ⟨g5 ++ r, by simp, ?_⟩
    rw [matchCount_iff]
    exact ⟨g5, r, rfl, h5, a5, hk⟩

theorem suffixCoreM_iff (k : List Char → Bool) (s : List Char) :
    suffixCoreM k s = true ↔
      ∃ t r, s = t ++ r ∧ SuffixShape t ∧ k r = true := by
  unfold suffixCoreM
  rw [matchLit_iff]
  constructor
  · rintro ⟨r1, rfl, h⟩
    rw [matchCls_iff] at h
    obtain ⟨c, r2, rfl, hc, h⟩ := h
    rw [matchCount_iff] at h
    obtain ⟨d3, r, rfl, h3, a3, hk⟩ := h
    exact ⟨'.' :: c :: d3, r, by simp, ⟨c, d3, rfl, hc, ⟨h3, a3⟩⟩, hk⟩
  · rintro ⟨t, r, rfl, ⟨c, d3, rfl, hc, ⟨h3, a3⟩⟩, hk⟩
    refine ⟨c :: d3 ++ r, by simp, ?_⟩
    rw [matchCls_iff]
    refine ⟨c, d3 ++ r, by simp, hc, ?_⟩
    rw [matchCount_iff]
    exact ⟨d3, r, rfl, h3, a3, hk⟩

theorem regexSuffixMatch_iff (k : List Char → Bool) (s : List Char) :
    regexSuffixMatch k s = true ↔
      ∃ t r, s = t ++ r ∧ SuffixOptShape t ∧ k r = true := by
  unfold regexSuffixMatch
  rw [matchOpt_iff, suffixCoreM_iff]
  constructor
  · rintro (⟨t, r, rfl, hs, hk⟩ | hk)
    · exact ⟨t, r, rfl, Or.inr hs, hk⟩
    · exact ⟨[], s, rfl, Or.inl rfl, hk⟩
  · rintro ⟨t, r, rfl, hs | hs, hk⟩
    · subst hs
      exact Or.inr hk
    · exact Or.inl ⟨t, r, rfl, hs, hk⟩

theorem regexBodySearch_iff (k : List Char → Bool) (s : List Char) :
    regexBodySearch k s = true ↔
      ∃ t r, s = t ++ r ∧ ArticleBodyShape t ∧ k r = true := by
  unfold regexBodySearch
  rw [matchAlt_iff, journalBodyM_iff, matchLit_iff]
  constructor
  · rintro (⟨t, r, rfl, hs, hk⟩ | ⟨r1, rfl, h⟩)
    · exact ⟨t, r, rfl, Or.inl hs, hk⟩
    · rw [uuidTokenM_iff] at h
      obtain ⟨u, r, rfl, hu, hk⟩ := h
      exact ⟨"annotation/".data ++ u, r, by simp [List.append_assoc],
        Or.inr ⟨u, rfl, hu⟩, hk⟩
  · rintro ⟨t, r, rfl, hs | ⟨u, rfl, hu⟩, hk⟩
    · exact Or.inl ⟨t, r, rfl, hs, hk⟩
    · refine Or.inr ⟨u ++ r, by simp [List.append_assoc], ?_⟩
      rw [uuidTokenM_iff]
      exact ⟨u, r, rfl, hu, hk⟩

theorem regexFileSearch_iff (k : List Char → Bool) (s : List Char) :
    regexFileSearch k s = true ↔
      ∃ t r, s = t ++ r ∧ FileBodyShape t ∧ k r = true := by
  unfold regexFileSearch
  rw [matchAlt_iff, journalBodyM_iff, matchLit_iff]
  constructor
  · rintro (⟨t, r, rfl, hs, hk⟩ | ⟨r1, rfl, h⟩)
    · exact ⟨t, r, rfl, Or.inl hs, hk⟩
    · rw [uuidTokenM_iff] at h
      obtain ⟨u, r, rfl, hu, hk⟩ := h
      exact ⟨"plos.correction.".data ++ u, r, by simp [List.append_assoc],
        Or.inr ⟨u, rfl, hu⟩, hk⟩
  · rintro ⟨t, r, rfl, hs | ⟨u, rfl, hu⟩, hk⟩
    · exact Or.inl ⟨t, r, rfl, hs, hk⟩
    · refine Or.inr ⟨u ++ r, by simp [List.append_assoc], ?_⟩
      rw [uuidTokenM_iff]
      exact ⟨u, r, rfl, hu, hk⟩

theorem regexFileSuffix_iff (k : List Char → Bool) (s : List Char) :
    regexFileSuffix k s = true ↔
      ∃ t r, s = t ++ r ∧ TypeSuffixShape t ∧ k r = true := by
  unfold regexFileSuffix
  rw [matchLit_iff]
  constructor
  · rintro ⟨r1, rfl, h⟩
    rw [matchAlt_iff, matchLit_iff, matchLit_iff] at h
    rcases h with ⟨r, rfl, hk⟩ | ⟨r, rfl, hk⟩
    · exact ⟨"&type=manuscript".data, r, by simp [List.append_assoc],
        Or.inl rfl, hk⟩
    · exact ⟨"&type=supplementary".data, r, by simp [List.append_assoc],
        Or.inr rfl, hk⟩
  · rintro ⟨t, r, rfl, hs | hs, hk⟩ <;> subst hs
    · refine ⟨"manuscript".data ++ r, by simp [List.append_assoc], ?_⟩
      rw [matchAlt_iff, matchLit_iff]
      exact Or.inl ⟨r, rfl, hk⟩
    · refine ⟨"supplementary".data ++ r, by simp [List.append_assoc], ?_⟩
      rw [matchAlt_iff, matchLit_iff, matchLit_iff]
      exact Or.inr ⟨r, rfl, hk⟩

theorem regexSuffixMatch_matchEnd (s : List Char) :
    regexSuffixMatch matchEnd s = true := by
  simp [regexSuffixMatch, matchOpt, matchEnd]

/-! ### Whole-function characterizations -/

/-- What `validate_doi` accepts: the string must start with `10.1371/` followed
by a journal-style body (anything may follow, since neither the journal
alternative nor the pattern end is anchored), or consist of
`10.1371/annotation/` + UUID token up to the end of the string (the `$` inside
the annotation alternative; a single trailing newline is tolerated by `$`, and
the optional suffix can then only match empty). -/
theorem validate_doi_iff (doi : String) :
    validate_doi doi = true ↔
      (∃ t r, doi.data = "10.1371/".data ++ (t ++ r) ∧ JournalShape t) ∨
      (∃ u nl, doi.data = "10.1371/annotation/".data ++ (u ++ nl) ∧
        UuidShape u ∧ (nl = [] ∨ nl = ['\n'])) := by
  unfold validate_doi regexBodyMatch
  rw [matchLit_iff]
  constructor
  · rintro ⟨r1, heq, h⟩
    rw [matchAlt_iff] at h
    rcases h with h | h
    · rw [journalBodyM_iff] at h
      obtain ⟨t, r, rfl, ht, -⟩ := h
      exact Or.inl ⟨t, r, heq, ht⟩
    · rw [matchLit_iff] at h
      obtain ⟨r2, rfl, h⟩ := h
      rw [uuidTokenM_iff] at h
      obtain ⟨u, r3, rfl, hu, h⟩ := h
      rw [matchDollar_iff] at h
      obtain ⟨hnl, -⟩ := h
      refine Or.inr ⟨u, r3, ?_, hu, hnl⟩
      rw [heq]; simp [List.append_assoc]
  · rintro (⟨t, r, heq, ht⟩ | ⟨u, nl, heq, hu, hnl⟩)
    · refine ⟨t ++ r, heq, ?_⟩
      rw [matchAlt_iff]
      left
      rw [journalBodyM_iff]
      exact ⟨t, r, rfl, ht, regexSuffixMatch_matchEnd r⟩
    · refine ⟨"annotation/".data ++ (u ++ nl), by rw [heq]; simp [List.append_assoc], ?_⟩
      rw [matchAlt_iff]
      right
      rw [matchLit_iff]
      refine ⟨u ++ nl, rfl, ?_⟩
      rw [uuidTokenM_iff]
      refine ⟨u, nl, rfl, hu, ?_⟩
      rw [matchDollar_iff]
      exact ⟨hnl, regexSuffixMatch_matchEnd nl⟩

/-- What `validate_filename` accepts: a file body (journal-style or
`plos.correction.` + UUID) immediately followed by `.xml`, anywhere in the
string. -/
theorem validate_filename_iff (filename : String) :
    validate_filename filename = true ↔
      ∃ pre body rest, filename.data = pre ++ (body ++ (".xml".data ++ rest)) ∧
        FileBodyShape body := by
  unfold validate_filename
  rw [searchFrom_iff]
  constructor
  · rintro ⟨p, r, heq, h⟩
    rw [regexFileSearch_iff] at h
    obtain ⟨body, r2, rfl, hb, h⟩ := h
    rw [matchLit_iff] at h
    obtain ⟨rest, rfl, -⟩ := h
    exact ⟨p, body, rest, heq, hb⟩
  · rintro ⟨pre, body, rest, heq, hb⟩
    refine ⟨pre, body ++ (".xml".data ++ rest), heq, ?_⟩
    rw [regexFileSearch_iff]
    refine ⟨body, ".xml".data ++ rest, rfl, hb, ?_⟩
    rw [matchLit_iff]
    exact ⟨rest, rfl, rfl⟩

/-- What `validate_file_url` accepts: the literal base url prefix, an article
body, an optional review/supplementary suffix, `&type=manuscript` or
`&type=supplementary`, and then anything (`.match` is not end-anchored). -/
theorem validate_file_url_iff (url : String) :
    validate_file_url url = true ↔
      ∃ body sfx t rest,
        url.data = "https://journals.plos.org/plosone/article/file?id=10.1371/".data ++
          (body ++ (sfx ++ (t ++ rest))) ∧
        ArticleBodyShape body ∧ SuffixOptShape sfx ∧ TypeSuffixShape t := by
  unfold validate_file_url
  rw [matchLit_iff]
  constructor
  · rintro ⟨r1, heq, h⟩
    rw [regexBodySearch_iff] at h
    obtain ⟨body, r2, rfl, hb, h⟩ := h
    rw [regexSuffixMatch_iff] at h
    obtain ⟨sfx, r3, rfl, hsfx, h⟩ := h
    rw [regexFileSuffix_iff] at h
    obtain ⟨t, rest, rfl, ht, -⟩ := h
    exact ⟨body, sfx, t, rest, heq, hb, hsfx, ht⟩
  · rintro ⟨body, sfx, t, rest, heq, hb, hsfx, ht⟩
    refine ⟨body ++ (sfx ++ (t ++ rest)), heq, ?_⟩
    rw [regexBodySearch_iff]
    refine ⟨body, sfx ++ (t ++ rest), rfl, hb, ?_⟩
    rw [regexSuffixMatch_iff]
    refine ⟨sfx, t ++ rest, rfl, hsfx, ?_⟩
    rw [regexFileSuffix_iff]
    exact ⟨t, rest, rfl, ht, rfl⟩

/-- What the Currents search accepts: because of the `^` anchor and the `$`
inside every body alternative, the whole string must be `10.1371/` + Currents
body, except for an optional single trailing newline. -/
theorem currentsDoiSearch_iff (x : String) :
    currentsDoiSearch x = true ↔
      ∃ body nl, x.data = "10.1371/".data ++ (body ++ nl) ∧
        CurrentsBodyShape body ∧ (nl = [] ∨ nl = ['\n']) := by
  unfold currentsDoiSearch regexBodyCurrents
  rw [matchLit_iff]
  constructor
  · rintro ⟨r1, heq, h⟩
    rw [matchAlt_iff, matchAlt_iff, matchAlt_iff] at h
    rcases h with h | h | h | h
    · rw [matchLit_iff] at h
      obtain ⟨r2, rfl, h⟩ := h
      rw [matchRep_iff] at h
      obtain ⟨ls, r3, rfl, h2, h9, hall, h⟩ := h
      rw [matchLit_iff] at h
      obtain ⟨r4, rfl, h⟩ := h
      rw [matchCount_iff] at h
      obtain ⟨a32, nl, rfl, h32, a32all, h⟩ := h
      rw [matchDollar_iff] at h
      refine ⟨"currents.".data ++ ls ++ '.' :: a32, nl, ?_,
        Or.inl ⟨ls, a32, rfl, h2, h9, hall, ⟨h32, a32all⟩⟩, h.1⟩
      rw [heq]; simp [List.append_assoc]
    · rw [matchLit_iff] at h
      obtain ⟨r2, rfl, h⟩ := h
      rw [matchCount_iff] at h
      obtain ⟨d4, nl, rfl, h4, a4, h⟩ := h
      rw [matchDollar_iff] at h
      refine ⟨"currents.RRN".data ++ d4, nl, ?_,
        Or.inr (Or.inl ⟨d4, rfl, ⟨h4, a4⟩⟩), h.1⟩
      rw [heq]; simp [List.append_assoc]
    · rw [matchCount_iff] at h
      obtain ⟨a13, nl, rfl, h13, a13all, h⟩ := h
      rw [matchDollar_iff] at h
      exact ⟨a13, nl, heq, Or.inr (Or.inr (Or.inl ⟨h13, a13all⟩)), h.1⟩
    · rw [matchCount_iff] at h
      obtain ⟨a32, nl, rfl, h32, a32all, h⟩ := h
      rw [matchDollar_iff] at h
      exact ⟨a32, nl, heq, Or.inr (Or.inr (Or.inr ⟨h32, a32all⟩)), h.1⟩
  · rintro ⟨body, nl, heq, hb, hnl⟩
    refine ⟨body ++ nl, heq, ?_⟩
    rw [matchAlt_iff, matchAlt_iff, matchAlt_iff]
    rcases hb with ⟨ls, a32, rfl, h2, h9, hall, ⟨h32, a32all⟩⟩ |
      ⟨d4, rfl, ⟨h4, a4⟩⟩ | ⟨h13, a13all⟩ | ⟨h32, a32all⟩
    · left
      rw [matchLit_iff]
      refine ⟨ls ++ '.' :: a32 ++ nl, by simp [List.append_assoc], ?_⟩
      rw [matchRep_iff]
      refine ⟨ls, '.' :: a32 ++ nl, by simp [List.append_assoc], h2, h9, hall, ?_⟩
      rw [matchLit_iff]
      refine ⟨a32 ++ nl, by simp, ?_⟩
      rw [matchCount_iff]
      refine ⟨a32, nl, rfl, h32, a32all, ?_⟩
      rw [matchDollar_iff]
      exact ⟨hnl, rfl⟩
    · right; left
      rw [matchLit_iff]
      refine ⟨d4 ++ nl, by simp [List.append_assoc], ?_⟩
      rw [matchCount_iff]
      refine ⟨d4, nl, rfl, h4, a4, ?_⟩
      rw [matchDollar_iff]
      exact ⟨hnl, rfl⟩
    · right; right; left
      rw [matchCount_iff]
      refine ⟨body, nl, rfl, h13, a13all, ?_⟩
      rw [matchDollar_iff]
      exact ⟨hnl, rfl⟩
    · right; right; right
      rw [matchCount_iff]
      refine ⟨body, nl, rfl, h32, a32all, ?_⟩
      rw [matchDollar_iff]
      exact ⟨hnl, rfl⟩

theorem consumeLit_iff (lit s r : List Char) :
    consumeLit lit s = some r ↔ s = lit ++ r := by
  induction lit generalizing s with
  | nil => simp [consumeLit, eq_comm]
  | cons l lit ih =>
    cases s with
    | nil => simp [consumeLit]
    | cons c s =>
      simp only [consumeLit]
      split
      · next heq =>
        rw [beq_iff_eq] at heq
        subst heq
        simp [ih]
      · next hne =>
        rw [beq_iff_eq] at hne
        constructor
        · intro h
          exact absurd h (by simp)
        · intro hcontra
          injection hcontra with h1 _
          exact absurd h1.symm hne

theorem consumeCount_iff (cls : Char → Bool) (n : Nat) (s r : List Char) :
    consumeCount cls n s = some r ↔
      ∃ t, s = t ++ r ∧ t.length = n ∧ ∀ c ∈ t, cls c = true := by
  induction n generalizing s with
  | zero =>
    simp only [consumeCount, Option.some_inj]
    constructor
    · rintro rfl
      exact ⟨[], rfl, rfl, by simp⟩
    · rintro ⟨t, rfl, hlen, -⟩
      rw [List.length_eq_zero] at hlen
      simp [hlen]
  | succ n ih =>
    cases s with
    | nil =>
      simp only [consumeCount]
      constructor
      · intro h
        exact absurd h (by simp)
      · rintro ⟨t, heq, hlen, -⟩
        cases t with
        | nil => simp at hlen
        | cons a t => simp at heq
    | cons c s =>
      simp only [consumeCount]
      split
      · next hc =>
        rw [ih]
        constructor
        · rintro ⟨t, rfl, hlen, hall⟩
          exact ⟨c :: t, rfl, by simp [hlen], by simpa using ⟨hc, hall⟩⟩
        · rintro ⟨t, heq, hlen, hall⟩
          cases t with
          | nil => simp at hlen
          | cons a t =>
            injection heq with h1 h2
            subst h1
            exact ⟨t, h2, by simpa using hlen, fun x hx => hall x (by simp [hx])⟩
      · next hc =>
        constructor
        · intro h
          exact absurd h (by simp)
        · rintro ⟨t, heq, hlen, hall⟩
          cases t with
          | nil => simp at hlen
          | cons a t =>
            injection heq with h1 _
            subst h1
            exact absurd (hall c (by simp)) hc

theorem consumeUuid_iff (s r : List Char) :
    consumeUuid s = some r ↔ ∃ u, s = u ++ r ∧ UuidShape u := by
  unfold consumeUuid
  constructor
  · intro h
    obtain ⟨c8, hc8, g9⟩ := Option.bind_eq_some.mp h
    obtain ⟨c7, hc7, g8⟩ := Option.bind_eq_some.mp hc8
    obtain ⟨c6, hc6, g7⟩ := Option.bind_eq_some.mp hc7
    obtain ⟨c5, hc5, g6⟩ := Option.bind_eq_some.mp hc6
    obtain ⟨c4, hc4, g5⟩ := Option.bind_eq_some.mp hc5
    obtain ⟨c3, hc3, g4⟩ := Option.bind_eq_some.mp hc4
    obtain ⟨c2, hc2, g3⟩ := Option.bind_eq_some.mp hc3
    obtain ⟨c1, hc1, g2⟩ := Option.bind_eq_some.mp hc2
    rw [consumeCount_iff] at hc1 g3 g5 g7 g9
    rw [consumeLit_iff] at g2 g4 g6 g8
    obtain ⟨g1t, rfl, hl1, ha1⟩ := hc1
    obtain ⟨g2t, rfl, hl2, ha2⟩ := g3
    obtain ⟨g3t, rfl, hl3, ha3⟩ := g5
    obtain ⟨g4t, rfl, hl4, ha4⟩ := g7
    obtain ⟨g5t, rfl, hl5, ha5⟩ := g9
    refine ⟨g1t ++ '-' :: (g2t ++ '-' :: (g3t ++ '-' :: (g4t ++ '-' :: g5t))), ?_,
      g1t, g2t, g3t, g4t, g5t, rfl, ⟨hl1, ha1⟩, ⟨hl2, ha2⟩, ⟨hl3, ha3⟩,
      ⟨hl4, ha4⟩, ⟨hl5, ha5⟩⟩
    rw [g2, g4, g6, g8]
    simp [List.append_assoc]
  · rintro ⟨u, rfl, g1, g2, g3, g4, g5, rfl, ⟨hl1, ha1⟩, ⟨hl2, ha2⟩, ⟨hl3, ha3⟩,
      ⟨hl4, ha4⟩, ⟨hl5, ha5⟩⟩
    have e1 : consumeCount Char.isAlphanum 8
        ((g1 ++ '-' :: (g2 ++ '-' :: (g3 ++ '-' :: (g4 ++ '-' :: g5)))) ++ r) =
        some (('-' :: (g2 ++ '-' :: (g3 ++ '-' :: (g4 ++ '-' :: g5)))) ++ r) := by
      rw [consumeCount_iff]
      exact ⟨g1, by simp [List.append_assoc], hl1, ha1⟩
    have e2 : consumeLit "-".data
        (('-' :: (g2 ++ '-' :: (g3 ++ '-' :: (g4 ++ '-' :: g5)))) ++ r) =
        some ((g2 ++ '-' :: (g3 ++ '-' :: (g4 ++ '-' :: g5))) ++ r) := by
      rw [consumeLit_iff]
      simp
    have e3 : consumeCount Char.isAlphanum 4
        ((g2 ++ '-' :: (g3 ++ '-' :: (g4 ++ '-' :: g5))) ++ r) =
        some (('-' :: (g3 ++ '-' :: (g4 ++ '-' :: g5))) ++ r) := by
      rw [consumeCount_iff]
      exact ⟨g2, by simp [List.append_assoc], hl2, ha2⟩
    have e4 : consumeLit "-".data
        (('-' :: (g3 ++ '-' :: (g4 ++ '-' :: g5))) ++ r) =
        some ((g3 ++ '-' :: (g4 ++ '-' :: g5)) ++ r) := by
      rw [consumeLit_iff]
      simp
    have e5 : consumeCount Char.isAlphanum 4
        ((g3 ++ '-' :: (g4 ++ '-' :: g5)) ++ r) =
        some (('-' :: (g4 ++ '-' :: g5)) ++ r) := by
      rw [consumeCount_iff]
      exact ⟨g3, by simp [List.append_assoc], hl3, ha3⟩
    have e6 : consumeLit "-".data (('-' :: (g4 ++ '-' :: g5)) ++ r) =
        some ((g4 ++ '-' :: g5) ++ r) := by
      rw [consumeLit_iff]
      simp
    have e7 : consumeCount Char.isAlphanum 4 ((g4 ++ '-' :: g5) ++ r) =
        some (('-' :: g5) ++ r) := by
      rw [consumeCount_iff]
      exact ⟨g4, by simp [List.append_assoc], hl4, ha4⟩
    have e8 : consumeLit "-".data (('-' :: g5) ++ r) = some (g5 ++ r) := by
      rw [consumeLit_iff]
      simp
    have e9 : consumeCount Char.isAlphanum 12 (g5 ++ r) = some r := by
      rw [consumeCount_iff]
      exact ⟨g5, rfl, hl5, ha5⟩
    simp only [List.append_assoc, List.cons_append, List.nil_append] at e1 e2 e3 e4 e5 e6 e7 e8 e9 ⊢
    simp only [Option.bind_eq_bind, e1, Option.some_bind, e2, e3, e4, e5, e6, e7,
      e8, e9]

theorem orElse_some_ne_none {α : Type} (x : Option α) (b : α) :
    (x <|> some b) ≠ none := by
  cases x with
  | none => rw [Option.none_orElse]; exact Option.some_ne_none b
  | some v => rw [Option.some_orElse]; exact Option.some_ne_none v

theorem doiSearchAt_sound {s r : List Char} (h : doiSearchAt s = some r) :
    ∃ m, s = m ++ r ∧ DoiSearchShape m := by
  rw [doiSearchAt] at h
  cases hA : (consumeLit "10.1371/journal.p".data s >>= consumeCount Char.isAlpha 3 >>=
      consumeLit ".".data >>= consumeCount Char.isDigit 7) with
  | some v =>
    rw [hA, Option.some_orElse] at h
    injection h with h
    subst h
    obtain ⟨c, hc, hv⟩ := Option.bind_eq_some.mp hA
    obtain ⟨b, hb, hc⟩ := Option.bind_eq_some.mp hc
    obtain ⟨a, ha, hb⟩ := Option.bind_eq_some.mp hb
    rw [consumeLit_iff] at ha hc
    rw [consumeCount_iff] at hb hv
    obtain ⟨l3, rfl, hl3, hall3⟩ := hb
    obtain ⟨d7, rfl, hd7, hall7⟩ := hv
    refine ⟨"10.1371/".data ++ ("journal.p".data ++ l3 ++ '.' :: d7), ?_,
      Or.inl ⟨"journal.p".data ++ l3 ++ '.' :: d7, rfl,
        l3, d7, rfl, ⟨hl3, hall3⟩, ⟨hd7, hall7⟩⟩⟩
    rw [ha, hc]
    simp [List.append_assoc]
  | none =>
    rw [hA, Option.none_orElse] at h
    obtain ⟨a, ha, h⟩ := Option.bind_eq_some.mp h
    rw [consumeLit_iff] at ha
    rw [consumeUuid_iff] at h
    obtain ⟨u, rfl, hu⟩ := h
    refine ⟨"10.1371/annotation/".data ++ u, ?_, Or.inr ⟨u, rfl, hu⟩⟩
    rw [ha]
    simp [List.append_assoc]

theorem doiSearchAt_none {s : List Char} (h : doiSearchAt s = none) :
    ¬ ∃ m r, s = m ++ r ∧ DoiSearchShape m := by
  rintro ⟨m, r, rfl, hm⟩
  rcases hm with ⟨t, rfl, l3, d7, rfl, ⟨hl3, hall3⟩, ⟨hd7, hall7⟩⟩ | ⟨u, rfl, hu⟩
  · have e1 : consumeLit "10.1371/journal.p".data
        (("10.1371/".data ++ ("journal.p".data ++ l3 ++ '.' :: d7)) ++ r) =
        some (l3 ++ '.' :: (d7 ++ r)) := by
      rw [consumeLit_iff]
      simp [List.append_assoc]
    have e2 : consumeCount Char.isAlpha 3 (l3 ++ '.' :: (d7 ++ r)) =
        some ('.' :: (d7 ++ r)) := by
      rw [consumeCount_iff]
      exact ⟨l3, rfl, hl3, hall3⟩
    have e3 : consumeLit ".".data ('.' :: (d7 ++ r)) = some (d7 ++ r) := by
      rw [consumeLit_iff]
      simp
    have e4 : consumeCount Char.isDigit 7 (d7 ++ r) = some r := by
      rw [consumeCount_iff]
      exact ⟨d7, rfl, hd7, hall7⟩
    rw [doiSearchAt] at h
    rw [e1, Option.bind_eq_bind, Option.some_bind, e2, Option.some_bind, e3,
      Option.some_bind, e4, Option.some_orElse] at h
    exact Option.some_ne_none r h
  · have e1 : consumeLit "10.1371/annotation/".data
        (("10.1371/annotation/".data ++ u) ++ r) = some (u ++ r) := by
      rw [consumeLit_iff]
      simp [List.append_assoc]
    have e2 : consumeUuid (u ++ r) = some r := by
      rw [consumeUuid_iff]
      exact ⟨u, rfl, hu⟩
    rw [doiSearchAt] at h
    rw [e1, Option.bind_eq_bind, Option.some_bind, e2] at h
    exact orElse_some_ne_none _ r h

/-- The substring extracted by the scan is the matched text. -/
theorem take_match (m r : List Char) :
    (m ++ r).take ((m ++ r).length - r.length) = m := by
  have hl : (m ++ r).length - r.length = m.length := by simp
  rw [hl, List.take_left]

theorem findAllAux_scan (fuel : Nat) :
    ∀ s : List Char, s.length ≤ fuel → ScanSpec s (findAllAux fuel s) := by
  induction fuel with
  | zero =>
    intro s hs
    have : s = [] := List.eq_nil_of_length_eq_zero (Nat.le_zero.mp hs)
    subst this
    simpa [findAllAux] using ScanSpec.nil
  | succ fuel ih =>
    intro s hs
    cases s with
    | nil => simpa [findAllAux] using ScanSpec.nil
    | cons c s =>
      cases hA : doiSearchAt (c :: s) with
      | some r =>
        obtain ⟨m, hm, hshape⟩ := doiSearchAt_sound hA
        have hlt := doiSearchAt_length hA
        have hr : r.length ≤ fuel := by
          simp only [List.length_cons] at hlt hs
          omega
        have htake : List.take (s.length + 1 - r.length) (c :: s) = m := by
          have ht := take_match m r
          rw [← hm] at ht
          simpa using ht
        have heq2 : findAllAux (fuel + 1) (c :: s) =
            String.mk m :: findAllAux fuel r := by
          simp [findAllAux, hA, htake]
        rw [heq2, hm]
        exact ScanSpec.found m r _ hshape (ih r hr)
      | none =>
        have heq2 : findAllAux (fuel + 1) (c :: s) = findAllAux fuel s := by
          simp [findAllAux, hA]
        rw [heq2]
        exact ScanSpec.step c s _ (doiSearchAt_none hA)
          (ih s (by simp only [List.length_cons] at hs; omega))

/-- Every string emitted by a `ScanSpec` derivation is a full DOI match. -/
theorem scanSpec_mem {s : List Char} {out : List String} (h : ScanSpec s out) :
    ∀ x ∈ out, ∃ m, x = String.mk m ∧ DoiSearchShape m := by
  induction h with
  | nil => intro x hx; simp at hx
  | found m r out hm _ ih =>
    intro x hx
    rcases List.mem_cons.mp hx with rfl | hx
    · exact ⟨m, rfl, hm⟩
    · exact ih x hx
  | step c s out hno _ ih => exact ih

/-- Every full DOI match passes `validate_doi`. -/
theorem doiSearchShape_validate {m : List Char} (h : DoiSearchShape m) :
    validate_doi (String.mk m) = true := by
  rw [validate_doi_iff]
  rcases h with ⟨t, rfl, ht⟩ | ⟨u, rfl, hu⟩
  · exact Or.inl ⟨t, [], by simp, ht⟩
  · exact Or.inr ⟨u, [], by simp, hu, Or.inl rfl⟩

/-- A UUID-shaped token always has 36 characters (8+4+4+4+12 and 4 dashes). -/
theorem uuidShape_length {u : List Char} (h : UuidShape u) : u.length = 36 := by
  obtain ⟨g1, g2, g3, g4, g5, rfl, ⟨h1, -⟩, ⟨h2, -⟩, ⟨h3, -⟩, ⟨h4, -⟩, ⟨h5, -⟩⟩ := h
  simp [List.length_append, List.length_cons, h1, h2, h3, h4, h5]

/-! ### Claim theorems -/

/-- C1: the claim describes `validate_plos_url` as requiring the site literal,
a lowercase journal path, `article` or `peerReview`, and then `?id=10.1371/`
plus an article body and optional suffix.  In the code the alternation of
`regex_type_match` is concatenated unparenthesized, so the compiled pattern is
the alternation of two unrelated branches: the first conjunct shows a url with
no `?id=` part accepted, the second a string without the site literal
accepted.  Both contradict the claimed characterization. -/
theorem validate_plos_url_unparenthesized_alternation :
    validate_plos_url "https://journals.plos.org/plosone/article" = true ∧
    validate_plos_url "peerReview?id=10.1371/journal.pbio.2000777" = true :=
  ⟨by decide, by decide⟩

/-- C2: the claim (and the docstring of `validate_doi`) says that
`10.1371/journal.pbio.20007779` (8 digits) is rejected; the code accepts it,
because the journal alternative is not end-anchored: the first 7 digits match
and the trailing `9` is tolerated.  The second conjunct shows the same
mechanism also contradicts the docstring example that a trailing space is
rejected. -/
theorem validate_doi_eight_digit_accepted :
    validate_doi "10.1371/journal.pbio.20007779" = true ∧
    validate_doi "10.1371/journal.pbio.2000777 " = true :=
  ⟨by decide, by decide⟩

/-- C3: counterexample to the claim as stated: this string begins with the
structurally valid DOI `10.1371/annotation/aaaaaaaa-aaaa-aaaa-aaaa-aaaaaaaaaaaa`
followed by one trailing character `Z`, yet `validate_doi` rejects it: the
annotation alternative carries a `$`, which admits nothing after the UUID
except a single trailing newline — and `Z` is not a newline. -/
theorem validate_doi_annotation_trailing_rejected :
    validate_doi "10.1371/annotation/aaaaaaaa-aaaa-aaaa-aaaa-aaaaaaaaaaaaZ" = false := by
  decide

/-- C3 (amended): for journal-style bodies the claimed trailing tolerance does
hold: any string that begins with `10.1371/journal.p` + 3 letters + `.` +
7 digits is accepted by `validate_doi` whatever follows (the arbitrary tail
subsumes the optional suffix).  For annotation-style bodies it does not:
`10.1371/annotation/` + UUID + tail is accepted exactly when the tail is empty
or a single newline (which the `$` of the annotation alternative tolerates);
any other trailing content is rejected. -/
theorem validate_doi_trailing_behavior :
    (∀ l3 d7 tail, CountCls Char.isAlpha 3 l3 → CountCls Char.isDigit 7 d7 →
      validate_doi ⟨"10.1371/journal.p".data ++ l3 ++ '.' :: (d7 ++ tail)⟩ = true) ∧
    (∀ u tail, UuidShape u →
      (validate_doi ⟨"10.1371/annotation/".data ++ (u ++ tail)⟩ = true ↔
        tail = [] ∨ tail = ['\n'])) := by
  constructor
  · intro l3 d7 tail h3 h7
    rw [validate_doi_iff]
    left
    refine ⟨"journal.p".data ++ l3 ++ '.' :: d7, tail, ?_, l3, d7, rfl, h3, h7⟩
    simp [List.append_assoc]
  · intro u tail hu
    constructor
    · intro h
      rw [validate_doi_iff] at h
      rcases h with ⟨t, r, heq, l3, d7, rfl, h3, h7⟩ | ⟨u', nl, heq, hu', hnl⟩
      · simp at heq
      · have h2 : u ++ tail = u' ++ nl := by
          have h9 := heq
          simp only [List.append_assoc] at h9
          exact List.append_cancel_left h9
        have hlen : u.length = u'.length := by
          rw [uuidShape_length hu, uuidShape_length hu']
        obtain ⟨-, rfl⟩ := List.append_inj h2 hlen
        exact hnl
    · rintro (rfl | rfl)
      · rw [validate_doi_iff]
        exact Or.inr ⟨u, [], rfl, hu, Or.inl rfl⟩
      · rw [validate_doi_iff]
        exact Or.inr ⟨u, ['\n'], rfl, hu, Or.inr rfl⟩

/-- C3 witness: the first conjunct applied at journal code `bio`, digits
`2000777` and trailing `9`; the second conjunct applied at a concrete UUID
with a single-newline tail. -/
theorem validate_doi_trailing_behavior_witness :
    CountCls Char.isAlpha 3 ['b', 'i', 'o'] ∧
    validate_doi ⟨"10.1371/journal.p".data ++ ['b', 'i', 'o'] ++
      '.' :: (['2', '0', '0', '0', '7', '7', '7'] ++ ['9'])⟩ = true ∧
    validate_doi ⟨"10.1371/annotation/".data ++
      ("aaaaaaaa-aaaa-aaaa-aaaa-aaaaaaaaaaaa".data ++ ['\n'])⟩ = true :=
  ⟨⟨rfl, by decide⟩,
   validate_doi_trailing_behavior.1 ['b', 'i', 'o']
     ['2', '0', '0', '0', '7', '7', '7'] ['9'] ⟨rfl, by decide⟩ ⟨rfl, by decide⟩,
   (validate_doi_trailing_behavior.2 "aaaaaaaa-aaaa-aaaa-aaaa-aaaaaaaaaaaa".data
     ['\n'] ⟨"aaaaaaaa".data, "aaaa".data, "aaaa".data, "aaaa".data,
       "aaaaaaaaaaaa".data, by decide, ⟨by decide, by decide⟩,
       ⟨by decide, by decide⟩, ⟨by decide, by decide⟩, ⟨by decide, by decide⟩,
       ⟨by decide, by decide⟩⟩).mpr (Or.inr rfl)⟩

/-- C4: counterexample to the claim as stated: an annotation body followed by
the suffix `.r001` (and nothing else) is rejected by `validate_doi`, because
the `$` inside the annotation alternative must match right after the UUID. -/
theorem validate_doi_annotation_suffix_rejected :
    validate_doi "10.1371/annotation/aaaaaaaa-aaaa-aaaa-aaaa-aaaaaaaaaaaa.r001" = false := by
  decide

/-- C4 (amended): a string that is exactly `10.1371/` + body + optional suffix
is accepted when the body is journal-style (with or without the suffix), and
when the body is annotation-style without a suffix. -/
theorem validate_doi_exact_doi_accepted :
    (∀ l3 d7 sfx, CountCls Char.isAlpha 3 l3 → CountCls Char.isDigit 7 d7 →
      SuffixOptShape sfx →
      validate_doi ⟨"10.1371/journal.p".data ++ l3 ++ '.' :: (d7 ++ sfx)⟩ = true) ∧
    (∀ u, UuidShape u →
      validate_doi ⟨"10.1371/annotation/".data ++ u⟩ = true) := by
  constructor
  · intro l3 d7 sfx h3 h7 _
    rw [validate_doi_iff]
    left
    refine ⟨"journal.p".data ++ l3 ++ '.' :: d7, sfx, ?_, l3, d7, rfl, h3, h7⟩
    simp [List.append_assoc]
  · intro u hu
    rw [validate_doi_iff]
    right
    exact ⟨u, [], by simp, hu, Or.inl rfl⟩

/-- C4 witness: the amended theorem applied at a journal DOI with suffix
`.s001` and at a bare annotation DOI. -/
theorem validate_doi_exact_doi_accepted_witness :
    SuffixShape ['.', 's', '0', '0', '1'] ∧
    validate_doi ⟨"10.1371/journal.p".data ++ ['b', 'i', 'o'] ++
      '.' :: (['2', '0', '0', '0', '7', '7', '7'] ++ ['.', 's', '0', '0', '1'])⟩ = true ∧
    validate_doi ⟨"10.1371/annotation/".data ++
      "aaaaaaaa-aaaa-aaaa-aaaa-aaaaaaaaaaaa".data⟩ = true :=
  ⟨⟨'s', ['0', '0', '1'], rfl, by decide, ⟨rfl, by decide⟩⟩,
   validate_doi_exact_doi_accepted.1 ['b', 'i', 'o']
     ['2', '0', '0', '0', '7', '7', '7'] ['.', 's', '0', '0', '1']
     ⟨rfl, by decide⟩ ⟨rfl, by decide⟩
     (Or.inr ⟨'s', ['0', '0', '1'], rfl, by decide, ⟨rfl, by decide⟩⟩),
   validate_doi_exact_doi_accepted.2 "aaaaaaaa-aaaa-aaaa-aaaa-aaaaaaaaaaaa".data
     ⟨"aaaaaaaa".data, "aaaa".data, "aaaa".data, "aaaa".data, "aaaaaaaaaaaa".data,
       by decide, ⟨by decide, by decide⟩, ⟨by decide, by decide⟩,
       ⟨by decide, by decide⟩, ⟨by decide, by decide⟩, ⟨by decide, by decide⟩⟩⟩

/-- C5: counterexample to the claim as stated: the claim includes
`annotation/` + UUID among the file bodies, but `regex_file_search` has no
annotation alternative, so this filename is rejected. -/
theorem validate_filename_annotation_body_rejected :
    validate_filename "annotation/aaaaaaaa-aaaa-aaaa-aaaa-aaaaaaaaaaaa.xml" = false := by
  decide

/-- C5 (amended): `validate_filename` returns true exactly when a file body —
journal-style, or `plos.correction.` + UUID token (annotation bodies are not
part of the file pattern) — immediately followed by `.xml` occurs anywhere in
the string. -/
theorem validate_filename_spec (filename : String) :
    validate_filename filename = true ↔
      ∃ pre body rest, filename.data = pre ++ (body ++ (".xml".data ++ rest)) ∧
        FileBodyShape body :=
  validate_filename_iff filename

/-- C6: counterexample to the claim as stated: this item contains the pattern
`10.1371/` + Currents body only as an internal substring (a leading `a`); the
claim says such an item is not kept, but the compiled pattern is `^`-anchored
and every body alternative is `$`-anchored, so the search fails and
`currents_doi_filter` keeps the item. -/
theorem currents_filter_keeps_internal :
    currents_doi_filter ["a10.1371/currents.RRN1234"] =
      ["a10.1371/currents.RRN1234"] := by
  decide

/-- C6 (amended): `currents_doi_filter` keeps exactly the items on which the
Currents search fails, in their original order; and the search succeeds
precisely on strings that are, in their entirety (up to one trailing newline
admitted by `$`), `10.1371/` + a Currents body — never on items containing the
pattern only as an internal substring. -/
theorem currents_doi_filter_spec :
    (∀ doi_list, currents_doi_filter doi_list =
      doi_list.filter fun x => !(currentsDoiSearch x)) ∧
    (∀ x : String, currentsDoiSearch x = true ↔
      ∃ body nl, x.data = "10.1371/".data ++ (body ++ nl) ∧
        CurrentsBodyShape body ∧ (nl = [] ∨ nl = ['\n'])) :=
  ⟨fun _ => rfl, currentsDoiSearch_iff⟩

/-- C7: `validate_file_url` accepts exactly the urls that begin, at the start
of the string, with the literal file-url prefix followed by an article body,
an optional review/supplementary suffix and `&type=manuscript` or
`&type=supplementary` (anything may follow, as `.match` is not end-anchored);
in particular the claim's url with the `&type=` part missing is rejected. -/
theorem validate_file_url_spec :
    (∀ url : String, validate_file_url url = true ↔
      ∃ body sfx t rest,
        url.data = "https://journals.plos.org/plosone/article/file?id=10.1371/".data ++
          (body ++ (sfx ++ (t ++ rest))) ∧
        ArticleBodyShape body ∧ SuffixOptShape sfx ∧ TypeSuffixShape t) ∧
    validate_file_url
      "https://journals.plos.org/plosone/article/file?id=10.1371/journal.pcbi.0020147" = false :=
  ⟨validate_file_url_iff, by decide⟩

/-- C8: `find_valid_dois` performs the left-to-right non-overlapping scan
described by `ScanSpec`: each leftmost occurrence of prefix + article body
(journal or annotation alternative, no suffix) is emitted in order of
occurrence and the scan resumes after it; the output is empty when there is no
occurrence (only `ScanSpec.nil` and `ScanSpec.step` can then apply).  On the
claim's example the two DOI substrings are returned in order. -/
theorem find_valid_dois_spec :
    (∀ s : String, ScanSpec s.data (find_valid_dois s)) ∧
    find_valid_dois "see 10.1371/journal.pbio.2000777 and 10.1371/journal.pone.0000001" =
      ["10.1371/journal.pbio.2000777", "10.1371/journal.pone.0000001"] :=
  ⟨fun s => findAllAux_scan s.data.length s.data (Nat.le_refl _), by decide⟩

/-- C9: `show_invalid_dois` is exactly the order-preserving filter keeping the
items on which `validate_doi` fails, and on the claim's example it returns
`["not-a-doi"]`. -/
theorem show_invalid_dois_spec :
    (∀ doi_list, show_invalid_dois doi_list =
      doi_list.filter fun x => !(validate_doi x)) ∧
    show_invalid_dois ["10.1371/journal.pbio.2000777", "not-a-doi"] =
      ["not-a-doi"] :=
  ⟨fun _ => rfl, by decide⟩

/-- C10: every string returned by `find_valid_dois` passes `validate_doi`:
`show_invalid_dois` applied to the output is always empty.  The search pattern
has no `^`, but every emitted match starts with the full `10.1371/` prefix, so
the `^`-anchored `validate_doi` accepts it; annotation matches end exactly at
the UUID, satisfying the `$` of the annotation alternative of
`regex_body_match`. -/
theorem find_valid_dois_all_valid (s : String) :
    show_invalid_dois (find_valid_dois s) = [] := by
  unfold show_invalid_dois
  rw [List.filter_eq_nil_iff]
  intro x hx
  obtain ⟨m, rfl, hm⟩ := scanSpec_mem
    (findAllAux_scan s.data.length s.data (Nat.le_refl _)) x hx
  simp [doiSearchShape_validate hm]

end PlosRegex
